import Mathlib

/-!
# Verification of the gbplaybook WebRTC signaling server

Shallow embedding of the signaling relay server (the latest source variant:
cookie-based identity, room broadcast, signal relay, and the numeric-code
pairing handshake).  The server's three shared JavaScript `Map`s
(`peerById`, `peersByRoom`, `peerByHandshake`) are modelled as association
lists, JavaScript `Set`s as duplicate-free insertion-ordered lists, and the
single-threaded event loop as a step function over an explicit server state.

A live connection (`ServerWebSocket`) is identified by a numeric handle
`cid : Nat`; its `ws.data` record persists for the lifetime of the object
(also after the socket closes, exactly as in JavaScript), so the model keeps
an archive `wsData` of every connection's data and never deletes from it.
The `lastPing` timestamp is informational only (updated from the wall clock,
never read by any logic) and is omitted from the model.
-/

namespace GBPlaybook

/-- The `PeerMessage` tagged union of the wire protocol. -/
inductive Msg where
  | init (yourPeerId : String)
  | join (room : String)
  | joined (otherPeerIds : List String)
  | signal (room : String) (senderPeerId : String) (receiverPeerId : String) (data : String)
  | ping
  | handshakeBegin
  | handshakeResponse (yourId : String) (code : Nat)
  | handshakeJoin (code : Nat)
  | handshakeComplete (yourId : String) (otherId : String)
deriving DecidableEq

/-- `Map.get`: first binding of the key in the association list. -/
def mapGet {α β : Type} [DecidableEq α] (k : α) : List (α × β) → Option β
  | [] => none
  | (k', v) :: rest => if k' = k then some v else mapGet k rest

/-- `Map.set`: replace the binding in place, or append a fresh one. -/
def mapSet {α β : Type} [DecidableEq α] (k : α) (v : β) : List (α × β) → List (α × β)
  | [] => [(k, v)]
  | (k', v') :: rest => if k' = k then (k, v) :: rest else (k', v') :: mapSet k v rest

/-- `Map.delete`: remove the binding of the key. -/
def mapDel {α β : Type} [DecidableEq α] (k : α) : List (α × β) → List (α × β)
  | [] => []
  | (k', v') :: rest => if k' = k then mapDel k rest else (k', v') :: mapDel k rest

/-- `Set.add`: insert at the end unless already present. -/
def setAdd {α : Type} [DecidableEq α] (x : α) (s : List α) : List α :=
  if x ∈ s then s else s ++ [x]

/-- `Set.delete`: remove the element. -/
def setDel {α : Type} [DecidableEq α] (x : α) : List α → List α
  | [] => []
  | y :: rest => if y = x then setDel x rest else y :: setDel x rest

def isHexDigit (c : Char) : Bool :=
  c.isDigit || (decide ('a' ≤ c) && decide (c ≤ 'f'))

/-- `uuid.validate`: the RFC-4122 textual shape accepted by the `uuid`
package — 8-4-4-4-12 hex groups, version digit 1–8, variant nibble 8/9/a/b,
case-insensitive, plus the nil and max UUIDs. -/
def uuidValidate (s : String) : Bool :=
  let cs := s.data.map Char.toLower
  cs == "00000000-0000-0000-0000-000000000000".data ||
  cs == "ffffffff-ffff-ffff-ffff-ffffffffffff".data ||
  (cs.length == 36 &&
   cs.enum.all (fun p =>
     if p.1 == 8 || p.1 == 13 || p.1 == 18 || p.1 == 23 then p.2 == '-'
     else if p.1 == 14 then decide ('1' ≤ p.2) && decide (p.2 ≤ '8')
     else if p.1 == 19 then p.2 == '8' || p.2 == '9' || p.2 == 'a' || p.2 == 'b'
     else isHexDigit p.2))

/-- The mutable `ws.data` record of one connection (`ServerPeer`).
`lastPing` is omitted (wall-clock only, never read).  `subs` records the
topics the socket is subscribed to (`ws.subscribe` / `ws.unsubscribe`). -/
structure ConnData where
  id : String
  rooms : List String
  code : Option Nat
  subs : List String
deriving DecidableEq

/-- The server's shared state: the archive of connection data plus the three
module-level maps `peerById`, `peersByRoom` and `peerByHandshake`.  The map
values `ServerWebSocket` are represented by the connection handle `cid`. -/
structure ServerState where
  wsData : List (Nat × ConnData)
  peerById : List (String × Nat)
  peersByRoom : List (String × List String)
  peerByHandshake : List (Nat × Nat)
deriving DecidableEq

def initState : ServerState :=
  { wsData := [], peerById := [], peersByRoom := [], peerByHandshake := [] }

/-- Observable outputs of one callback: frames sent to a single socket,
frames published to a topic, and server-initiated closes. -/
inductive Out where
  | send (cid : Nat) (m : Msg)
  | publish (topic : String) (m : Msg)
  | closeConn (cid : Nat) (reason : String)
deriving DecidableEq

/-- The inputs the event loop serializes: connection upgrade (with the
resolved `uid`), an inbound frame (with the stream of random draws the
handler may consume), and socket close. -/
inductive Event where
  | connOpen (cid : Nat) (uid : String)
  | connMsg (cid : Nat) (draws : List Nat) (m : Msg)
  | connClose (cid : Nat)
deriving DecidableEq

/-- The `open` callback: register in `peerById`, send the `init` frame. -/
def handleOpen (cid : Nat) (uid : String) (s : ServerState) : ServerState × List Out :=
  let d : ConnData := { id := uid, rooms := [], code := none, subs := [] }
  ({ s with wsData := mapSet cid d s.wsData,
            peerById := mapSet uid cid s.peerById },
   [Out.send cid (Msg.init uid)])

/-- The rejection-sampling `do { code = Math.floor(Math.random() * 9999) }
while (peerByHandshake.has(code))` loop of `handshake-begin`.  Each abstract
random seed `r` stands for one draw, mapped into the code space `[0, 9999)`
as `r % 9999` (mirroring `Math.floor(Math.random() * 9999)`).  `none` means
the loop did not exit within the supplied draws — the source loop itself has
no retry bound and simply keeps drawing. -/
def genCode (draws : List Nat) (table : List (Nat × Nat)) : Option Nat :=
  match draws with
  | [] => none
  | r :: rest =>
    let code := r % 9999
    match mapGet code table with
    | some _ => genCode rest table
    | none => some code

/-- The `message` callback, one case per `message.type`.  Unknown frame
types fall through the `default` arm and are ignored. -/
def handleMsg (cid : Nat) (draws : List Nat) (m : Msg) (s : ServerState) :
    ServerState × List Out :=
  match mapGet cid s.wsData with
  | none => (s, [])
  | some peer =>
    match m with
    | Msg.join roomId =>
      if uuidValidate roomId then
        ({ s with wsData := mapSet cid
                    { peer with rooms := setAdd roomId peer.rooms,
                                subs := setAdd roomId peer.subs } s.wsData,
                  peersByRoom := mapSet roomId
                    (setAdd peer.id ((mapGet roomId s.peersByRoom).getD [])) s.peersByRoom },
         [Out.publish roomId (Msg.joined (setAdd peer.id ((mapGet roomId s.peersByRoom).getD [])))])
      else
        (s, [Out.closeConn cid "Invalid ID"])
    | Msg.signal room senderId receiverId payload =>
      if senderId = peer.id then
        match mapGet receiverId s.peerById with
        | some rcid => (s, [Out.send rcid (Msg.signal room senderId receiverId payload)])
        | none => (s, [])
      else
        (s, [])
    | Msg.handshakeBegin =>
      match genCode draws s.peerByHandshake with
      | none => (s, [])
      | some code =>
        ({ s with wsData := mapSet cid { peer with code := some code } s.wsData,
                  peerByHandshake := mapSet code cid s.peerByHandshake },
         [Out.send cid (Msg.handshakeResponse peer.id code)])
    | Msg.handshakeJoin code =>
      match mapGet code s.peerByHandshake with
      | none => (s, [])
      | some ocid =>
        match mapGet ocid s.wsData with
        | none => (s, [])
        | some owner =>
          ({ s with peerByHandshake := mapDel code s.peerByHandshake },
           [Out.send cid (Msg.handshakeComplete peer.id owner.id),
            Out.send ocid (Msg.handshakeComplete owner.id peer.id)])
    | _ => (s, [])

/-- One iteration of the disconnect cascade's `peer.rooms.forEach`: remove
the peer from the room's member set and delete the room entry the moment it
becomes empty. -/
def closeRoomStep (peerId : String) (rooms : List (String × List String)) (roomId : String) :
    List (String × List String) :=
  match mapGet roomId rooms with
  | none => rooms
  | some room =>
    let room1 := setDel peerId room
    if room1.isEmpty then mapDel roomId rooms else mapSet roomId room1 rooms

/-- The `close` callback: cascade through the peer's rooms (removing the
member, unsubscribing, deleting rooms left empty), deregister the peer id,
and delete the peer's recorded pending handshake code, if any. -/
def handleClose (cid : Nat) (s : ServerState) : ServerState × List Out :=
  match mapGet cid s.wsData with
  | none => (s, [])
  | some peer =>
    ({ s with
        peersByRoom := peer.rooms.foldl (closeRoomStep peer.id) s.peersByRoom,
        wsData := mapSet cid
          { peer with subs := peer.rooms.foldl (fun acc r => setDel r acc) peer.subs }
          s.wsData,
        peerById := mapDel peer.id s.peerById,
        peerByHandshake :=
          match peer.code with
          | some c => mapDel c s.peerByHandshake
          | none => s.peerByHandshake },
     [])

/-- One serialized callback of the event loop. -/
def step (ev : Event) (s : ServerState) : ServerState × List Out :=
  match ev with
  | Event.connOpen cid uid => handleOpen cid uid s
  | Event.connMsg cid draws m => handleMsg cid draws m s
  | Event.connClose cid => handleClose cid s

/-- The server state after a sequence of events, from the empty start. -/
def run (evs : List Event) : ServerState :=
  evs.foldl (fun s ev => (step ev s).1) initState

/-- The member set of a room (`peersByRoom.get(roomId)`, empty if absent). -/
def roomMembers (s : ServerState) (roomId : String) : List String :=
  (mapGet roomId s.peersByRoom).getD []

/-- The connections currently subscribed to a topic. -/
def subscribers (s : ServerState) (topic : String) : List Nat :=
  (s.wsData.filter (fun p => decide (topic ∈ p.2.subs))).map Prod.fst

/-- Pub/sub delivery: a `publish` fans out to every current subscriber of
the topic; a `send` reaches exactly its socket. -/
def deliver (s : ServerState) (o : Out) : List (Nat × Msg) :=
  match o with
  | Out.send cid m => [(cid, m)]
  | Out.publish topic m => (subscribers s topic).map (fun c => (c, m))
  | Out.closeConn _ _ => []

/-- A Pairing Table in which every code of the space `[0, 9999)` is pending
(the values are irrelevant; all map to connection 0). -/
def fullTable : List (Nat × Nat) := (List.range 9999).map (fun i => (i, 0))

/-- A syntactically valid room identifier for concrete test traces. -/
def testUuid : String := "123e4567-e89b-12d3-a456-426614174000"

/-- Trace for C2's counterexample: peer A (connection 0) issues two pairing
codes (0, then 1) and disconnects; then peer B (connection 1) connects. -/
def c2Trace : List Event :=
  [Event.connOpen 0 "A",
   Event.connMsg 0 [0] Msg.handshakeBegin,
   Event.connMsg 0 [1] Msg.handshakeBegin,
   Event.connClose 0,
   Event.connOpen 1 "B"]

/-- Trace for C2's amended claim: peer A issues a single code, 0. -/
def c2SingleTrace : List Event :=
  [Event.connOpen 0 "A", Event.connMsg 0 [0] Msg.handshakeBegin]

/-- Trace with one connected peer A. -/
def oneConnTrace : List Event := [Event.connOpen 0 "A"]

/-- Trace with peers A (connection 0) and B (connection 1) connected. -/
def twoConnTrace : List Event := [Event.connOpen 0 "A", Event.connOpen 1 "B"]

/-- Trace for C6: A and B connect and A issues pairing code 7. -/
def c6Trace : List Event :=
  [Event.connOpen 0 "A", Event.connOpen 1 "B", Event.connMsg 0 [7] Msg.handshakeBegin]

/-- Trace for C9: A connects and issues pairing code 5. -/
def c9Trace : List Event :=
  [Event.connOpen 0 "A", Event.connMsg 0 [5] Msg.handshakeBegin]

/-- Trace for C10: A connects and joins the test room once. -/
def c10Trace : List Event :=
  [Event.connOpen 0 "A", Event.connMsg 0 [] (Msg.join testUuid)]

/-! ## Basic lemmas on the map and set operations -/

theorem mapGet_mapSet {α β : Type} [DecidableEq α] (k r : α) (v : β) (m : List (α × β)) :
    mapGet r (mapSet k v m) = if k = r then some v else mapGet r m := by
  induction m with
  | nil => simp [mapGet, mapSet]
  | cons hd tl ih =>
    obtain ⟨k', v'⟩ := hd
    simp only [mapSet]
    by_cases hk : k' = k
    · subst hk
      simp only [if_pos rfl, mapGet]
      by_cases hr : k' = r <;> simp [hr]
    · simp only [if_neg hk, mapGet, ih]
      by_cases hr : k' = r
      · subst hr
        have hkr : ¬ k = k' := fun h => hk h.symm
        simp [hkr]
      · simp [hr]

theorem mapGet_mapDel {α β : Type} [DecidableEq α] (k r : α) (m : List (α × β)) :
    mapGet r (mapDel k m) = if r = k then none else mapGet r m := by
  induction m with
  | nil => simp [mapGet, mapDel]
  | cons hd tl ih =>
    obtain ⟨k', v'⟩ := hd
    simp only [mapDel]
    by_cases hk : k' = k
    · rw [if_pos hk, ih]
      by_cases hr : r = k
      · simp [hr]
      · rw [if_neg hr, if_neg hr, mapGet]
        have h2 : ¬ k' = r := fun h => hr (h ▸ hk)
        rw [if_neg h2]
    · rw [if_neg hk, mapGet, ih]
      by_cases hr : k' = r
      · have hrk : ¬ r = k := fun h => hk (hr.trans h)
        rw [if_pos hr, if_neg hrk, mapGet, if_pos hr]
      · by_cases hrk : r = k
        · rw [if_neg hr, if_pos hrk, if_pos hrk]
        · rw [if_neg hr, if_neg hrk, if_neg hrk, mapGet, if_neg hr]

theorem mapGet_eq_none_iff {α β : Type} [DecidableEq α] (k : α) (m : List (α × β)) :
    mapGet k m = none ↔ k ∉ m.map Prod.fst := by
  induction m with
  | nil => simp [mapGet]
  | cons hd tl ih =>
    obtain ⟨k', v'⟩ := hd
    simp only [mapGet, List.map_cons, List.mem_cons]
    by_cases hk : k' = k
    · simp [hk]
    · rw [if_neg hk, ih]
      constructor
      · intro h hor
        cases hor with
        | inl he => exact hk he.symm
        | inr hm => exact h hm
      · intro h hm
        exact h (Or.inr hm)

theorem mapSet_self {α β : Type} [DecidableEq α] (k : α) (v : β) (m : List (α × β))
    (h : mapGet k m = some v) : mapSet k v m = m := by
  induction m with
  | nil => simp [mapGet] at h
  | cons hd tl ih =>
    obtain ⟨k', v'⟩ := hd
    simp only [mapGet] at h
    simp only [mapSet]
    by_cases hk : k' = k
    · subst hk
      rw [if_pos rfl] at h
      rw [if_pos rfl]
      injection h with h2
      rw [h2]
    · simp only [if_neg hk] at h ⊢
      rw [ih h]

theorem mapGet_mem {α β : Type} [DecidableEq α] (k : α) (v : β) (m : List (α × β))
    (h : mapGet k m = some v) : (k, v) ∈ m := by
  induction m with
  | nil => simp [mapGet] at h
  | cons hd tl ih =>
    obtain ⟨k', v'⟩ := hd
    simp only [mapGet] at h
    by_cases hk : k' = k
    · subst hk
      simp only [if_pos rfl] at h
      cases h
      exact List.mem_cons_self _ _
    · simp only [if_neg hk] at h
      exact List.mem_cons_of_mem _ (ih h)

theorem keys_mapSet_of_none {α β : Type} [DecidableEq α] (k : α) (v : β) (m : List (α × β))
    (h : mapGet k m = none) : (mapSet k v m).map Prod.fst = m.map Prod.fst ++ [k] := by
  induction m with
  | nil => simp [mapSet]
  | cons hd tl ih =>
    obtain ⟨k', v'⟩ := hd
    simp only [mapGet] at h
    by_cases hk : k' = k
    · simp [hk] at h
    · simp only [mapSet, if_neg hk, List.map]
      rw [ih (by simpa [hk] using h)]
      simp

theorem setAdd_ne_nil {α : Type} [DecidableEq α] (x : α) (s : List α) : setAdd x s ≠ [] := by
  unfold setAdd
  by_cases hx : x ∈ s
  · simp only [if_pos hx]
    intro h
    subst h
    simp at hx
  · simp [if_neg hx]

theorem mem_setAdd_self {α : Type} [DecidableEq α] (x : α) (s : List α) : x ∈ setAdd x s := by
  unfold setAdd
  by_cases hx : x ∈ s <;> simp [hx]

theorem setAdd_of_mem {α : Type} [DecidableEq α] {x : α} {s : List α} (h : x ∈ s) :
    setAdd x s = s := by
  simp [setAdd, h]

theorem mem_mapSet_self {α β : Type} [DecidableEq α] (k : α) (v : β) (m : List (α × β)) :
    (k, v) ∈ mapSet k v m := by
  induction m with
  | nil => simp [mapSet]
  | cons hd tl ih =>
    obtain ⟨k', v'⟩ := hd
    simp only [mapSet]
    by_cases hk : k' = k
    · simp [hk]
    · simp only [if_neg hk]
      exact List.mem_cons_of_mem _ ih

theorem mapGet_append {α β : Type} [DecidableEq α] (k : α) (l1 l2 : List (α × β)) :
    mapGet k (l1 ++ l2) =
      match mapGet k l1 with
      | some v => some v
      | none => mapGet k l2 := by
  induction l1 with
  | nil => simp [mapGet]
  | cons hd tl ih =>
    obtain ⟨k', v'⟩ := hd
    simp only [List.cons_append, mapGet]
    by_cases hk : k' = k
    · simp [hk]
    · simp only [if_neg hk]
      exact ih

/-! ## Code generation: the handshake-begin rejection loop -/

theorem genCode_some (draws : List Nat) (table : List (Nat × Nat)) (c : Nat)
    (h : genCode draws table = some c) : c < 9999 ∧ mapGet c table = none := by
  induction draws with
  | nil => simp [genCode] at h
  | cons r rest ih =>
    simp only [genCode] at h
    cases hg : mapGet (r % 9999) table with
    | some v =>
      rw [hg] at h
      exact ih h
    | none =>
      rw [hg] at h
      injection h with h
      subst h
      exact ⟨Nat.mod_lt _ (by norm_num), hg⟩

theorem mapGet_fullTable (c : Nat) (h : c < 9999) : mapGet c fullTable = some 0 := by
  suffices hgen : ∀ n c, c < n → mapGet c ((List.range n).map (fun i => (i, 0))) = some 0 by
    exact hgen 9999 c h
  intro n
  induction n with
  | zero => intro c hc; exact absurd hc (Nat.not_lt_zero c)
  | succ n ih =>
    intro c hc
    rw [List.range_succ, List.map_append, mapGet_append]
    by_cases hcn : c < n
    · rw [ih c hcn]
    · have hceq : c = n := Nat.le_antisymm (Nat.lt_succ_iff.mp hc) (Nat.le_of_not_lt hcn)
      have hnone : mapGet c ((List.range n).map (fun i => (i, 0))) = none := by
        rw [mapGet_eq_none_iff]
        intro hmem
        simp only [List.map_map] at hmem
        have : c ∈ List.range n := by
          simpa using hmem
        exact hcn (List.mem_range.mp this)
      rw [hnone]
      simp [mapGet, hceq]

/-! ## Unfolding equations for the handlers -/

theorem handleMsg_no_conn (cid : Nat) (draws : List Nat) (m : Msg) (s : ServerState)
    (hd : mapGet cid s.wsData = none) : handleMsg cid draws m s = (s, []) := by
  simp only [handleMsg, hd]

theorem handleMsg_join_valid (cid : Nat) (draws : List Nat) (roomId : String)
    (s : ServerState) (peer : ConnData)
    (hd : mapGet cid s.wsData = some peer) (hv : uuidValidate roomId = true) :
    handleMsg cid draws (Msg.join roomId) s =
      ({ s with wsData := mapSet cid
                  { peer with rooms := setAdd roomId peer.rooms,
                              subs := setAdd roomId peer.subs } s.wsData,
                peersByRoom := mapSet roomId
                  (setAdd peer.id ((mapGet roomId s.peersByRoom).getD [])) s.peersByRoom },
       [Out.publish roomId
         (Msg.joined (setAdd peer.id ((mapGet roomId s.peersByRoom).getD [])))]) := by
  simp only [handleMsg, hd, hv, if_true]

theorem handleMsg_join_invalid (cid : Nat) (draws : List Nat) (roomId : String)
    (s : ServerState) (peer : ConnData)
    (hd : mapGet cid s.wsData = some peer) (hv : uuidValidate roomId = false) :
    handleMsg cid draws (Msg.join roomId) s = (s, [Out.closeConn cid "Invalid ID"]) := by
  simp only [handleMsg, hd, hv, Bool.false_eq_true, if_false]

theorem handleMsg_signal_forward (cid : Nat) (draws : List Nat)
    (room sid rid payload : String) (s : ServerState) (peer : ConnData) (rcid : Nat)
    (hd : mapGet cid s.wsData = some peer) (hs : sid = peer.id)
    (hr : mapGet rid s.peerById = some rcid) :
    handleMsg cid draws (Msg.signal room sid rid payload) s =
      (s, [Out.send rcid (Msg.signal room sid rid payload)]) := by
  simp only [handleMsg, hd, hr, if_pos hs]

theorem handleMsg_signal_spoof (cid : Nat) (draws : List Nat)
    (room sid rid payload : String) (s : ServerState) (peer : ConnData)
    (hd : mapGet cid s.wsData = some peer) (hs : sid ≠ peer.id) :
    handleMsg cid draws (Msg.signal room sid rid payload) s = (s, []) := by
  simp only [handleMsg, hd, if_neg hs]

theorem handleMsg_signal_unknown (cid : Nat) (draws : List Nat)
    (room sid rid payload : String) (s : ServerState) (peer : ConnData)
    (hd : mapGet cid s.wsData = some peer) (hr : mapGet rid s.peerById = none) :
    handleMsg cid draws (Msg.signal room sid rid payload) s = (s, []) := by
  by_cases hs : sid = peer.id
  · simp only [handleMsg, hd, hr, if_pos hs]
  · simp only [handleMsg, hd, if_neg hs]

theorem handleMsg_begin (cid : Nat) (draws : List Nat) (s : ServerState)
    (peer : ConnData) (c : Nat)
    (hd : mapGet cid s.wsData = some peer) (hg : genCode draws s.peerByHandshake = some c) :
    handleMsg cid draws Msg.handshakeBegin s =
      ({ s with wsData := mapSet cid { peer with code := some c } s.wsData,
                peerByHandshake := mapSet c cid s.peerByHandshake },
       [Out.send cid (Msg.handshakeResponse peer.id c)]) := by
  simp only [handleMsg, hd, hg]

theorem handleMsg_begin_stuck (cid : Nat) (draws : List Nat) (s : ServerState)
    (peer : ConnData)
    (hd : mapGet cid s.wsData = some peer) (hg : genCode draws s.peerByHandshake = none) :
    handleMsg cid draws Msg.handshakeBegin s = (s, []) := by
  simp only [handleMsg, hd, hg]

theorem handleMsg_hsJoin_found (cid : Nat) (draws : List Nat) (code : Nat)
    (s : ServerState) (peer owner : ConnData) (ocid : Nat)
    (hd : mapGet cid s.wsData = some peer)
    (hc : mapGet code s.peerByHandshake = some ocid)
    (ho : mapGet ocid s.wsData = some owner) :
    handleMsg cid draws (Msg.handshakeJoin code) s =
      ({ s with peerByHandshake := mapDel code s.peerByHandshake },
       [Out.send cid (Msg.handshakeComplete peer.id owner.id),
        Out.send ocid (Msg.handshakeComplete owner.id peer.id)]) := by
  simp only [handleMsg, hd, hc, ho]

theorem handleMsg_hsJoin_absent (cid : Nat) (draws : List Nat) (code : Nat)
    (s : ServerState) (peer : ConnData)
    (hd : mapGet cid s.wsData = some peer)
    (hc : mapGet code s.peerByHandshake = none) :
    handleMsg cid draws (Msg.handshakeJoin code) s = (s, []) := by
  simp only [handleMsg, hd, hc]

theorem handleClose_no_conn (cid : Nat) (s : ServerState)
    (hd : mapGet cid s.wsData = none) : handleClose cid s = (s, []) := by
  simp only [handleClose, hd]

theorem handleClose_eq (cid : Nat) (s : ServerState) (peer : ConnData)
    (hd : mapGet cid s.wsData = some peer) :
    handleClose cid s =
      ({ s with
          peersByRoom := peer.rooms.foldl (closeRoomStep peer.id) s.peersByRoom,
          wsData := mapSet cid
            { peer with subs := peer.rooms.foldl (fun acc r => setDel r acc) peer.subs }
            s.wsData,
          peerById := mapDel peer.id s.peerById,
          peerByHandshake :=
            match peer.code with
            | some c => mapDel c s.peerByHandshake
            | none => s.peerByHandshake },
       []) := by
  simp only [handleClose, hd]

/-! ## The Room Index non-emptiness invariant (C1) -/

/-- Every entry of a room index association list has a non-empty member set. -/
def roomsNE (rooms : List (String × List String)) : Prop :=
  ∀ r m, mapGet r rooms = some m → m ≠ []

/-- Every entry of the server's Room Index has a non-empty member set. -/
def roomsNonempty (s : ServerState) : Prop :=
  roomsNE s.peersByRoom

theorem foldl_preserve {α σ : Type} (P : σ → Prop) (f : σ → α → σ)
    (hf : ∀ s a, P s → P (f s a)) :
    ∀ (l : List α) (s : σ), P s → P (l.foldl f s) := by
  intro l
  induction l with
  | nil => intro s h; exact h
  | cons hd tl ih => intro s h; exact ih _ (hf s hd h)

theorem closeRoomStep_roomsNE (pid : String) (rooms : List (String × List String))
    (rid : String) (h : roomsNE rooms) : roomsNE (closeRoomStep pid rooms rid) := by
  unfold closeRoomStep
  cases hg : mapGet rid rooms with
  | none => exact h
  | some room =>
    by_cases he : (setDel pid room).isEmpty
    · simp only [if_pos he]
      intro r m hm
      rw [mapGet_mapDel] at hm
      by_cases hr : r = rid
      · simp [hr] at hm
      · rw [if_neg hr] at hm
        exact h r m hm
    · simp only [if_neg he]
      intro r m hm
      rw [mapGet_mapSet] at hm
      by_cases hr : rid = r
      · rw [if_pos hr] at hm
        injection hm with hm
        rw [← hm]
        intro hnil
        rw [hnil] at he
        exact he rfl
      · rw [if_neg hr] at hm
        exact h r m hm

theorem step_roomsNonempty (ev : Event) (s : ServerState) (h : roomsNonempty s) :
    roomsNonempty (step ev s).1 := by
  cases ev with
  | connOpen cid uid => exact h
  | connMsg cid draws m =>
    show roomsNE (handleMsg cid draws m s).1.peersByRoom
    cases hd : mapGet cid s.wsData with
    | none => rw [handleMsg_no_conn cid draws m s hd]; exact h
    | some peer =>
      cases m with
      | join roomId =>
        by_cases hv : uuidValidate roomId = true
        · rw [handleMsg_join_valid cid draws roomId s peer hd hv]
          intro r mm hm
          rw [mapGet_mapSet] at hm
          by_cases hr : roomId = r
          · rw [if_pos hr] at hm
            injection hm with hm
            rw [← hm]
            exact setAdd_ne_nil _ _
          · rw [if_neg hr] at hm
            exact h r mm hm
        · rw [handleMsg_join_invalid cid draws roomId s peer hd
            (Bool.not_eq_true _ ▸ hv)]
          exact h
      | signal room senderId receiverId payload =>
        by_cases hs : senderId = peer.id
        · cases hr : mapGet receiverId s.peerById with
          | none =>
            rw [handleMsg_signal_unknown cid draws room senderId receiverId payload s peer hd hr]
            exact h
          | some rcid =>
            rw [handleMsg_signal_forward cid draws room senderId receiverId payload s peer
              rcid hd hs hr]
            exact h
        · rw [handleMsg_signal_spoof cid draws room senderId receiverId payload s peer hd hs]
          exact h
      | ping => simp only [handleMsg, hd]; exact h
      | handshakeBegin =>
        cases hg : genCode draws s.peerByHandshake with
        | none => rw [handleMsg_begin_stuck cid draws s peer hd hg]; exact h
        | some c => rw [handleMsg_begin cid draws s peer c hd hg]; exact h
      | handshakeJoin code =>
        cases hc : mapGet code s.peerByHandshake with
        | none => rw [handleMsg_hsJoin_absent cid draws code s peer hd hc]; exact h
        | some ocid =>
          cases ho : mapGet ocid s.wsData with
          | none => simp only [handleMsg, hd, hc, ho]; exact h
          | some owner =>
            rw [handleMsg_hsJoin_found cid draws code s peer owner ocid hd hc ho]
            exact h
      | init yourPeerId => simp only [handleMsg, hd]; exact h
      | joined otherPeerIds => simp only [handleMsg, hd]; exact h
      | handshakeResponse yourId code => simp only [handleMsg, hd]; exact h
      | handshakeComplete yourId otherId => simp only [handleMsg, hd]; exact h
  | connClose cid =>
    show roomsNE (handleClose cid s).1.peersByRoom
    cases hd : mapGet cid s.wsData with
    | none => rw [handleClose_no_conn cid s hd]; exact h
    | some peer =>
      rw [handleClose_eq cid s peer hd]
      exact foldl_preserve roomsNE (closeRoomStep peer.id)
        (fun rooms rid hne => closeRoomStep_roomsNE peer.id rooms rid hne)
        peer.rooms s.peersByRoom h

theorem run_roomsNonempty (evs : List Event) : roomsNonempty (run evs) := by
  unfold run
  refine foldl_preserve roomsNonempty _ (fun s ev hs => step_roomsNonempty ev s hs) evs initState ?_
  intro r m hm
  simp [initState, mapGet] at hm

theorem mem_subscribers (s : ServerState) (topic : String) (c : Nat) (dd : ConnData)
    (hm : (c, dd) ∈ s.wsData) (ht : topic ∈ dd.subs) : c ∈ subscribers s topic := by
  unfold subscribers
  apply List.mem_map.mpr
  exact ⟨(c, dd), List.mem_filter.mpr ⟨hm, by simpa using ht⟩, rfl⟩

theorem deliver_publish_mem (s : ServerState) (topic : String) (m : Msg) (c : Nat)
    (hc : c ∈ subscribers s topic) : (c, m) ∈ deliver s (Out.publish topic m) := by
  simp only [deliver]
  exact List.mem_map.mpr ⟨c, hc, rfl⟩

/-! ## The claims -/

/-- C1: in every reachable server state (after each complete handling of an
event), a room identifier is a key of the Room Index iff its member set is
non-empty — the entry appears on the first join naming it and is deleted the
moment the disconnect cascade removes the last member. -/
theorem c1_room_index_iff_nonempty (evs : List Event) (r : String) :
    mapGet r (run evs).peersByRoom ≠ none ↔ roomMembers (run evs) r ≠ [] := by
  have h := run_roomsNonempty evs
  cases hm : mapGet r (run evs).peersByRoom with
  | none => simp [roomMembers, hm]
  | some m =>
    have hne := h r m hm
    simp [roomMembers, hm, hne]

/-- C2 counterexample: connection 0 (peer A) issues pairing codes 0 and then
1 and disconnects while both are pending.  The cleanup removes only the
most recently recorded code 1: code 0 is still pending after the close, and
a later `handshake-join` carrying 0 emits `handshake-complete` frames —
refuting the claim for a peer that issued more than one code. -/
theorem c2_counterexample :
    mapGet 0 (run c2Trace).peerByHandshake = some 0 ∧
    (step (Event.connMsg 1 [] (Msg.handshakeJoin 0)) (run c2Trace)).2 =
      [Out.send 1 (Msg.handshakeComplete "B" "A"),
       Out.send 0 (Msg.handshakeComplete "A" "B")] :=
  ⟨rfl, rfl⟩

/-- C2 (amended): when the disconnecting peer's record holds pending code
`c` (the most recently issued one — in particular whenever the peer issued
exactly one code before disconnecting), the disconnect cleanup deletes `c`
from the Pairing Table and every subsequent `handshake-join` carrying `c` is
a no-op: no frame is sent and the state is unchanged.  Codes the peer issued
earlier and superseded are not removed. -/
theorem c2_disconnect_invalidates_recorded_code (s : ServerState) (cid : Nat)
    (d : ConnData) (c : Nat) (j : Nat) (draws : List Nat)
    (hd : mapGet cid s.wsData = some d) (hc : d.code = some c) :
    mapGet c (handleClose cid s).1.peerByHandshake = none ∧
    step (Event.connMsg j draws (Msg.handshakeJoin c)) (handleClose cid s).1 =
      ((handleClose cid s).1, []) := by
  rw [handleClose_eq cid s d hd]
  have htab : mapGet c
      (match d.code with
        | some c' => mapDel c' s.peerByHandshake
        | none => s.peerByHandshake) = none := by
    rw [hc, mapGet_mapDel, if_pos rfl]
  refine ⟨htab, ?_⟩
  show handleMsg j draws (Msg.handshakeJoin c) _ = _
  cases hj : mapGet j (mapSet cid
      { d with subs := d.rooms.foldl (fun acc r => setDel r acc) d.subs } s.wsData) with
  | none => exact handleMsg_no_conn _ _ _ _ hj
  | some pj => exact handleMsg_hsJoin_absent _ _ _ _ _ hj htab

/-- C2 witness: peer A issued the single code 0; after its disconnect the
code is gone and a `handshake-join` carrying 0 from connection 1 does
nothing. -/
theorem c2_witness :
    mapGet 0 (handleClose 0 (run c2SingleTrace)).1.peerByHandshake = none ∧
    step (Event.connMsg 1 [] (Msg.handshakeJoin 0)) (handleClose 0 (run c2SingleTrace)).1 =
      ((handleClose 0 (run c2SingleTrace)).1, []) :=
  c2_disconnect_invalidates_recorded_code (run c2SingleTrace) 0
    { id := "A", rooms := [], code := some 0, subs := [] } 0 1 [] rfl rfl

/-- C5: a `join` whose room field is not a syntactically valid UUID makes
the handler close the sending connection with the protocol-violation reason
and leave the entire server state unchanged — no room created, no member
inserted, no broadcast. -/
theorem c5_invalid_join_rejected (s : ServerState) (cid : Nat) (draws : List Nat)
    (d : ConnData) (roomId : String)
    (hd : mapGet cid s.wsData = some d) (hv : uuidValidate roomId = false) :
    handleMsg cid draws (Msg.join roomId) s = (s, [Out.closeConn cid "Invalid ID"]) :=
  handleMsg_join_invalid cid draws roomId s d hd hv

/-- C5 witness: joining the non-UUID room "not-a-uuid" on a live connection
closes it and changes nothing. -/
theorem c5_witness :
    handleMsg 0 [] (Msg.join "not-a-uuid") (run oneConnTrace) =
      (run oneConnTrace, [Out.closeConn 0 "Invalid ID"]) :=
  c5_invalid_join_rejected (run oneConnTrace) 0 []
    { id := "A", rooms := [], code := none, subs := [] } "not-a-uuid" rfl (by decide)

/-- C8: the rejection-sampling loop of `handshake-begin` has no retry cap —
when every code of the space `[0, 9999)` is pending, no sequence of draws,
however long, makes `genCode` exit: the do-while loops forever instead of
failing the operation explicitly, contradicting the claim. -/
theorem c8_loop_never_exits (draws : List Nat) :
    genCode draws fullTable = none := by
  induction draws with
  | nil => rfl
  | cons r rest ih =>
    simp only [genCode]
    rw [mapGet_fullTable (r % 9999) (Nat.mod_lt _ (by norm_num))]
    exact ih

/-- C3: handling a valid `join` publishes exactly one `joined` frame on the
room's topic; its roster equals, order-insensitively, the room's full
post-join member set including the joiner, and pub/sub delivery hands that
very frame to every current subscriber of the room (the joiner among them),
not only to the joiner and not as a delta. -/
theorem c3_roster_broadcast (s : ServerState) (cid : Nat) (draws : List Nat)
    (d : ConnData) (roomId : String)
    (hd : mapGet cid s.wsData = some d) (hv : uuidValidate roomId = true) :
    ∃ roster,
      (handleMsg cid draws (Msg.join roomId) s).2 =
        [Out.publish roomId (Msg.joined roster)] ∧
      (∀ x, x ∈ roster ↔ x ∈ roomMembers (handleMsg cid draws (Msg.join roomId) s).1 roomId) ∧
      d.id ∈ roster ∧
      cid ∈ subscribers (handleMsg cid draws (Msg.join roomId) s).1 roomId ∧
      (∀ c, c ∈ subscribers (handleMsg cid draws (Msg.join roomId) s).1 roomId →
        (c, Msg.joined roster) ∈
          deliver (handleMsg cid draws (Msg.join roomId) s).1
            (Out.publish roomId (Msg.joined roster))) := by
  rw [handleMsg_join_valid cid draws roomId s d hd hv]
  refine ⟨setAdd d.id ((mapGet roomId s.peersByRoom).getD []), rfl, ?_,
    mem_setAdd_self _ _, ?_, ?_⟩
  · intro x
    simp [roomMembers, mapGet_mapSet]
  · exact mem_subscribers _ roomId cid _ (mem_mapSet_self _ _ _) (mem_setAdd_self _ _)
  · intro c hc
    exact deliver_publish_mem _ roomId _ c hc

/-- C3 witness: peer A joins a fresh valid room; the broadcast roster is
exactly the member set and reaches every subscriber. -/
theorem c3_witness :
    ∃ roster,
      (handleMsg 0 [] (Msg.join testUuid) (run oneConnTrace)).2 =
        [Out.publish testUuid (Msg.joined roster)] ∧
      (∀ x, x ∈ roster ↔
        x ∈ roomMembers (handleMsg 0 [] (Msg.join testUuid) (run oneConnTrace)).1 testUuid) ∧
      "A" ∈ roster ∧
      0 ∈ subscribers (handleMsg 0 [] (Msg.join testUuid) (run oneConnTrace)).1 testUuid ∧
      (∀ c, c ∈ subscribers (handleMsg 0 [] (Msg.join testUuid) (run oneConnTrace)).1 testUuid →
        (c, Msg.joined roster) ∈
          deliver (handleMsg 0 [] (Msg.join testUuid) (run oneConnTrace)).1
            (Out.publish testUuid (Msg.joined roster))) :=
  c3_roster_broadcast (run oneConnTrace) 0 []
    { id := "A", rooms := [], code := none, subs := [] } testUuid rfl (by decide)

/-- C4: an inbound `signal` whose sender field matches the sending
connection's identifier and whose receiver is registered is forwarded
verbatim to the receiver's connection; on a sender mismatch or an
unregistered receiver nothing is sent to anyone and no error is returned —
the state is unchanged in every case. -/
theorem c4_signal_forwarding (s : ServerState) (cid : Nat) (draws : List Nat)
    (d : ConnData) (room sid rid payload : String)
    (hd : mapGet cid s.wsData = some d) :
    (∀ rcid, sid = d.id → mapGet rid s.peerById = some rcid →
      handleMsg cid draws (Msg.signal room sid rid payload) s =
        (s, [Out.send rcid (Msg.signal room sid rid payload)])) ∧
    (sid ≠ d.id → handleMsg cid draws (Msg.signal room sid rid payload) s = (s, [])) ∧
    (mapGet rid s.peerById = none →
      handleMsg cid draws (Msg.signal room sid rid payload) s = (s, [])) :=
  ⟨fun rcid hs hr => handleMsg_signal_forward cid draws room sid rid payload s d rcid hd hs hr,
   fun hs => handleMsg_signal_spoof cid draws room sid rid payload s d hd hs,
   fun hr => handleMsg_signal_unknown cid draws room sid rid payload s d hd hr⟩

/-- C4 witness: with A on connection 0 and B on connection 1, A's signal to
B is forwarded to connection 1 verbatim; B cannot spoof A's sender id; a
signal to the unknown peer C is dropped without any output. -/
theorem c4_witness :
    handleMsg 0 [] (Msg.signal testUuid "A" "B" "x") (run twoConnTrace) =
      (run twoConnTrace, [Out.send 1 (Msg.signal testUuid "A" "B" "x")]) ∧
    handleMsg 1 [] (Msg.signal testUuid "A" "B" "x") (run twoConnTrace) =
      (run twoConnTrace, []) ∧
    handleMsg 0 [] (Msg.signal testUuid "A" "C" "x") (run twoConnTrace) =
      (run twoConnTrace, []) :=
  ⟨(c4_signal_forwarding (run twoConnTrace) 0 []
      { id := "A", rooms := [], code := none, subs := [] } testUuid "A" "B" "x" rfl).1 1 rfl rfl,
   (c4_signal_forwarding (run twoConnTrace) 1 []
      { id := "B", rooms := [], code := none, subs := [] } testUuid "A" "B" "x" rfl).2.1
      (by decide),
   (c4_signal_forwarding (run twoConnTrace) 0 []
      { id := "A", rooms := [], code := none, subs := [] } testUuid "A" "C" "x" rfl).2.2 rfl⟩

/-- C6: a pending code is one-shot: a successful `handshake-join` sends one
completion frame to the joiner and one to the owner, each carrying its own
identifier as `yourId` and the counterpart's as `otherId`, deletes the code
from the Pairing Table, and any second `handshake-join` with the same value
finds it absent, producing no frames and no state change. -/
theorem c6_code_one_shot (s : ServerState) (cid ocid : Nat) (draws : List Nat)
    (d od : ConnData) (c : Nat)
    (hd : mapGet cid s.wsData = some d)
    (hc : mapGet c s.peerByHandshake = some ocid)
    (ho : mapGet ocid s.wsData = some od) :
    (handleMsg cid draws (Msg.handshakeJoin c) s).2 =
      [Out.send cid (Msg.handshakeComplete d.id od.id),
       Out.send ocid (Msg.handshakeComplete od.id d.id)] ∧
    mapGet c (handleMsg cid draws (Msg.handshakeJoin c) s).1.peerByHandshake = none ∧
    (∀ j dr,
      handleMsg j dr (Msg.handshakeJoin c) (handleMsg cid draws (Msg.handshakeJoin c) s).1 =
        ((handleMsg cid draws (Msg.handshakeJoin c) s).1, [])) := by
  rw [handleMsg_hsJoin_found cid draws c s d od ocid hd hc ho]
  have htab : mapGet c (mapDel c s.peerByHandshake) = none := by
    rw [mapGet_mapDel, if_pos rfl]
  refine ⟨rfl, htab, ?_⟩
  intro j dr
  cases hj : mapGet j s.wsData with
  | none => exact handleMsg_no_conn _ _ _ _ hj
  | some pj => exact handleMsg_hsJoin_absent _ _ _ _ _ hj htab

/-- C6 witness: A issues code 7, B consumes it (both completion frames have
the right ids), and a replayed `handshake-join 7` from any connection is a
no-op. -/
theorem c6_witness :
    (handleMsg 1 [] (Msg.handshakeJoin 7) (run c6Trace)).2 =
      [Out.send 1 (Msg.handshakeComplete "B" "A"),
       Out.send 0 (Msg.handshakeComplete "A" "B")] ∧
    mapGet 7 (handleMsg 1 [] (Msg.handshakeJoin 7) (run c6Trace)).1.peerByHandshake = none ∧
    (∀ j dr,
      handleMsg j dr (Msg.handshakeJoin 7) (handleMsg 1 [] (Msg.handshakeJoin 7) (run c6Trace)).1 =
        ((handleMsg 1 [] (Msg.handshakeJoin 7) (run c6Trace)).1, [])) :=
  c6_code_one_shot (run c6Trace) 1 0 []
    { id := "B", rooms := [], code := none, subs := [] }
    { id := "A", rooms := [], code := some 7, subs := [] } 7 rfl rfl rfl

/-- C7: every code `handshake-begin` issues lies in `[0, 9999)` and is
absent from the Pairing Table at the moment of issue; the new table binds it
to the issuer, its key set is the old one extended by the fresh code, and
key distinctness is preserved — so any number of begins with all codes still
pending yields pairwise distinct codes, at most one entry per code. -/
theorem c7_codes_fresh_and_in_range (s : ServerState) (cid : Nat) (draws : List Nat)
    (d : ConnData) (c : Nat)
    (hd : mapGet cid s.wsData = some d)
    (hg : genCode draws s.peerByHandshake = some c) :
    c < 9999 ∧ mapGet c s.peerByHandshake = none ∧
    handleMsg cid draws Msg.handshakeBegin s =
      ({ s with wsData := mapSet cid { d with code := some c } s.wsData,
                peerByHandshake := mapSet c cid s.peerByHandshake },
       [Out.send cid (Msg.handshakeResponse d.id c)]) ∧
    (mapSet c cid s.peerByHandshake).map Prod.fst = s.peerByHandshake.map Prod.fst ++ [c] ∧
    ((s.peerByHandshake.map Prod.fst).Nodup →
      ((mapSet c cid s.peerByHandshake).map Prod.fst).Nodup) := by
  obtain ⟨h1, h2⟩ := genCode_some draws s.peerByHandshake c hg
  have hkeys := keys_mapSet_of_none c cid s.peerByHandshake h2
  refine ⟨h1, h2, handleMsg_begin cid draws s d c hd hg, hkeys, ?_⟩
  intro hnd
  rw [hkeys]
  have hcnot : c ∉ s.peerByHandshake.map Prod.fst := (mapGet_eq_none_iff _ _).mp h2
  simp [List.nodup_append, hnd, hcnot]

/-- C7 witness: on an empty Pairing Table the draw 42 issues code 42. -/
theorem c7_witness :
    42 < 9999 ∧ mapGet 42 (run oneConnTrace).peerByHandshake = none ∧
    handleMsg 0 [42] Msg.handshakeBegin (run oneConnTrace) =
      ({ run oneConnTrace with
          wsData := mapSet 0 { id := "A", rooms := [], code := some 42, subs := [] }
            (run oneConnTrace).wsData,
          peerByHandshake := mapSet 42 0 (run oneConnTrace).peerByHandshake },
       [Out.send 0 (Msg.handshakeResponse "A" 42)]) ∧
    (mapSet 42 0 (run oneConnTrace).peerByHandshake).map Prod.fst =
      (run oneConnTrace).peerByHandshake.map Prod.fst ++ [42] ∧
    (((run oneConnTrace).peerByHandshake.map Prod.fst).Nodup →
      ((mapSet 42 0 (run oneConnTrace).peerByHandshake).map Prod.fst).Nodup) :=
  c7_codes_fresh_and_in_range (run oneConnTrace) 0 [42]
    { id := "A", rooms := [], code := none, subs := [] } 42 rfl rfl

/-- C9: a peer that sends `handshake-join` with the code it itself issued
completes the handshake with itself: both completion frames go to it, each
with `yourId` and `otherId` equal to its own identifier, and the code is
consumed. -/
theorem c9_self_pairing (s : ServerState) (cid : Nat) (draws : List Nat)
    (d : ConnData) (c : Nat)
    (hd : mapGet cid s.wsData = some d)
    (hc : mapGet c s.peerByHandshake = some cid) :
    (handleMsg cid draws (Msg.handshakeJoin c) s).2 =
      [Out.send cid (Msg.handshakeComplete d.id d.id),
       Out.send cid (Msg.handshakeComplete d.id d.id)] ∧
    mapGet c (handleMsg cid draws (Msg.handshakeJoin c) s).1.peerByHandshake = none := by
  rw [handleMsg_hsJoin_found cid draws c s d d cid hd hc hd]
  refine ⟨rfl, ?_⟩
  show mapGet c (mapDel c s.peerByHandshake) = none
  rw [mapGet_mapDel, if_pos rfl]

/-- C9 witness: A issues code 5 and joins it itself, receiving two
completion frames naming itself on both sides. -/
theorem c9_witness :
    (handleMsg 0 [] (Msg.handshakeJoin 5) (run c9Trace)).2 =
      [Out.send 0 (Msg.handshakeComplete "A" "A"),
       Out.send 0 (Msg.handshakeComplete "A" "A")] ∧
    mapGet 5 (handleMsg 0 [] (Msg.handshakeJoin 5) (run c9Trace)).1.peerByHandshake = none :=
  c9_self_pairing (run c9Trace) 0 []
    { id := "A", rooms := [], code := some 5, subs := [] } 5 rfl rfl

/-- C10: a second valid `join` by a peer already a member of the room leaves
the whole state unchanged (member set and room set are sets, so re-insertion
is a no-op) while the full-roster `joined` broadcast is still published to
the room's subscribers. -/
theorem c10_join_idempotent (s : ServerState) (cid : Nat) (draws : List Nat)
    (d : ConnData) (roomId : String) (room : List String)
    (hd : mapGet cid s.wsData = some d)
    (hv : uuidValidate roomId = true)
    (hr : mapGet roomId s.peersByRoom = some room)
    (hm : d.id ∈ room) (hro : roomId ∈ d.rooms) (hsu : roomId ∈ d.subs) :
    handleMsg cid draws (Msg.join roomId) s = (s, [Out.publish roomId (Msg.joined room)]) := by
  rw [handleMsg_join_valid cid draws roomId s d hd hv]
  rw [hr]
  simp only [Option.getD_some, setAdd_of_mem hm, setAdd_of_mem hro, setAdd_of_mem hsu]
  rw [mapSet_self cid d s.wsData hd, mapSet_self roomId room s.peersByRoom hr]

/-- C10 witness: A joins the test room twice; the second join returns the
unchanged state and still broadcasts the roster `["A"]`. -/
theorem c10_witness :
    handleMsg 0 [] (Msg.join testUuid) (run c10Trace) =
      (run c10Trace, [Out.publish testUuid (Msg.joined ["A"])]) :=
  c10_join_idempotent (run c10Trace) 0 []
    { id := "A", rooms := [testUuid], code := none, subs := [testUuid] } testUuid ["A"]
    rfl (by decide) rfl (by decide) (by decide) (by decide)

end GBPlaybook
